import Mathlib

/-!
Verification of the padel match scheduler (`src/App.tsx`).

The whole program logic lives in one React component.  We embed it shallowly:

* JS arrays become `List`, JS string-keyed objects used as number maps become
  insertion-ordered association lists `List (String × Option Nat)`, where the
  value `none` models the JS number `NaN` (which `wins[p]++` produces when `p`
  was never initialised) and an absent key models an absent object property.
* `Math.random()`-driven shuffling is embedded by passing the random source
  explicitly: a function `r : Nat → Nat` supplies the raw draw at loop index
  `i`, and the in-range index `Math.floor(Math.random() * (i + 1)) ∈ [0, i]`
  is recovered as `r i % (i + 1)`; every possible sequence of in-range draws
  is realised by some `r`, so theorems quantified over `r` cover every run.
* `Array.prototype.sort` with the comparator `(a, b) => stats[a] - stats[b]`
  is, per the ECMAScript specification, a stable sort by `stats` ascending;
  the stable sort over a consistent comparator is unique, so we embed it as
  `List.mergeSort` with the boolean relation `stats a ≤ stats b`.
* React state updates inside one handler are batched into a single visible
  transition, so each handler becomes a pure function `AppState → AppState`.
* A JS write `arr[i] = v` past the end of an array grows it (holes read as
  `undefined`), and indexing a missing row yields `undefined`, so writing
  through it throws a `TypeError`; `setCourtWinner` therefore returns an
  `Option`, with `none` modelling the thrown exception (a crash).
-/

/-- `type CourtWinner = 1 | 2 | null`.  `team1`/`team2` model `1`/`2`,
`unset` models `null`.  `undef` models the JS `undefined` that appears when a
row of the winners table is grown past its length by an out-of-bounds write
(holes read as `undefined`; like `null`, `undefined` matches neither
`winner === 1` nor `winner === 2`). -/
inductive CourtWinner where
  | team1
  | team2
  | unset
  | undef
  deriving DecidableEq, Repr

/-- `interface Match { courts: string[][]; resting: string[] }`. -/
structure Match where
  courts : List (List String)
  resting : List String
  deriving DecidableEq, Repr

/-- `interface Schedule { rounds: Match[] }`. -/
structure Schedule where
  rounds : List Match
  deriving DecidableEq, Repr

/-- One swap step of `shuffleArray`:
`[shuffled[i], shuffled[j]] = [shuffled[j], shuffled[i]]` (both reads happen
before both writes).  In the program both indices are always in range, where
`getD` agrees with JS indexing. -/
def listSwap (l : List String) (i j : Nat) : List String :=
  (l.set i (l.getD j "")).set j (l.getD i "")

/-- The Fisher–Yates loop of `shuffleArray`, counting `i` down to `1`;
`r i % (i + 1)` is the draw `Math.floor(Math.random() * (i + 1))`. -/
def fyAux (r : Nat → Nat) : Nat → List String → List String
  | 0, l => l
  | i + 1, l => fyAux r i (listSwap l (i + 1) (r (i + 1) % (i + 2)))

/-- `shuffleArray` from the source: copy the array, then Fisher–Yates from
index `length - 1` down to `1`, with explicit random source `r`. -/
def shuffleArray (r : Nat → Nat) (l : List String) : List String :=
  fyAux r (l.length - 1) l

/-- `parsePlayers`: split the raw input on commas and newlines, trim every
piece, drop the empty ones. -/
def parsePlayers (input : String) : List String :=
  ((input.split (fun c => c == ',' || c == '\n')).map String.trim).filter
    (fun name => decide (0 < name.length))

/-- `calculateRounds`: fit whole rounds in the duration, round down to a
multiple of the court count, and clamp up to at least one round per court.
The application only feeds in positive integers, for which JS float
arithmetic plus `Math.floor` agrees with `Nat` division. -/
def calculateRounds (durationHours roundDuration courts : Nat) : Nat :=
  let rounds := durationHours * 60 / roundDuration
  let rounds := rounds / courts * courts
  if rounds < courts then courts else rounds

/-- Error text of validation rule 1 (fewer than 4 players). -/
def msgAtLeast4 (n : Nat) : String :=
  "Please enter at least 4 players. You entered " ++ toString n ++ "."

/-- Error text of validation rule 2 (court count below 1). -/
def msgCourtCount : String :=
  "There must be at least 1 court."

/-- Error text of validation rule 3 (too few players for the courts). -/
def msgNeedPlayers (courts : Nat) : String :=
  "You need at least " ++ toString (courts * 4) ++ " players for " ++
    toString courts ++ " courts (4 per court)."

/-- Error text of validation rule 4 (too many courts). -/
def msgMaxCourts (maxCourts : Nat) : String :=
  "Too many courts for the number of players. Max courts: " ++ toString maxCourts

/-- Error text of validation rule 5 (duplicate names). -/
def msgUnique : String :=
  "Please ensure all player names are unique."

/-- `validatePlayers`: first failing rule wins; `new Set(names).size` is the
number of distinct names, i.e. `names.dedup.length`.  The court count is a
`Nat` since the UI dial keeps it a nonnegative integer. -/
def validatePlayers (playerNames : List String) (courts : Nat) : Option String :=
  if playerNames.length < 4 then
    some (msgAtLeast4 playerNames.length)
  else if courts < 1 then
    some msgCourtCount
  else if playerNames.length < courts * 4 then
    some (msgNeedPlayers courts)
  else if courts > playerNames.length / 4 then
    some (msgMaxCourts (playerNames.length / 4))
  else if playerNames.dedup.length ≠ playerNames.length then
    some msgUnique
  else
    none

/-- The per-round sort of `generateSchedule`:
`[...playerNames].sort((a, b) => playerStats[a] - playerStats[b])`, a stable
ascending sort of a fresh copy of the original roster by current games
played. -/
def roundSorted (stats : String → Nat) (playerNames : List String) : List String :=
  playerNames.mergeSort (fun a b => stats a ≤ stats b)

/-- The body of one iteration of the round loop of `generateSchedule`: sort
the original roster by games played, select the first `courts * 4` players,
rest the others, shuffle the selected players and cut them into consecutive
groups of 4 (`slice(c * 4, (c + 1) * 4)`). -/
def genRound (rng : Nat → Nat) (playerNames : List String) (courts : Nat)
    (stats : String → Nat) : Match :=
  let sortedPlayers := roundSorted stats playerNames
  let selectedPlayers := sortedPlayers.take (courts * 4)
  let restingPlayers := sortedPlayers.drop (courts * 4)
  let shuffledSelected := shuffleArray rng selectedPlayers
  let courtAssignments :=
    (List.range courts).map (fun c => (shuffledSelected.drop (c * 4)).take 4)
  { courts := courtAssignments, resting := restingPlayers }

/-- `selectedPlayers.forEach(player => playerStats[player]++)` as explicit
state passing: bump the counter once per occurrence in `selected`. -/
def nextStats (stats : String → Nat) (selected : List String) : String → Nat :=
  selected.foldl (fun st p => fun q => if q = p then st q + 1 else st q) stats

/-- The games-played counter update performed by one round of
`generateSchedule` (the selection depends only on the sort, not on the
shuffle, so no random source appears here). -/
def stepStats (playerNames : List String) (courts : Nat) (stats : String → Nat) :
    String → Nat :=
  nextStats stats ((roundSorted stats playerNames).take (courts * 4))

/-- The round loop of `generateSchedule`, with the mutable `playerStats`
object threaded explicitly; `rng roundIdx` is the random source consumed by
round `roundIdx`. -/
def genRounds (rng : Nat → Nat → Nat) (playerNames : List String) (courts : Nat) :
    Nat → Nat → (String → Nat) → List Match
  | 0, _, _ => []
  | n + 1, roundIdx, stats =>
    genRound (rng roundIdx) playerNames courts stats ::
      genRounds rng playerNames courts n (roundIdx + 1)
        (stepStats playerNames courts stats)

/-- `generateSchedule(playerNames, courts, rounds)`: all games-played
counters start at 0 (the source initialises `playerStats[name] = 0` exactly
for the roster names, and only roster names are ever looked up). -/
def generateSchedule (rng : Nat → Nat → Nat) (playerNames : List String)
    (courts rounds : Nat) : Schedule :=
  ⟨genRounds rng playerNames courts rounds 0 (fun _ => 0)⟩

/-- The cumulative games-played counter after `k` rounds of a
`generateSchedule` run (explicit form of the mutable `playerStats`). -/
def statsAfter (playerNames : List String) (courts : Nat) : Nat → (String → Nat)
  | 0 => fun _ => 0
  | k + 1 => stepStats playerNames courts (statsAfter playerNames courts k)

/-- Key membership in a JS object used as a `string → number` map. -/
def hasKey (m : List (String × Option Nat)) (k : String) : Bool :=
  m.any (fun e => e.1 == k)

/-- `m[k] = v`: overwrite in place if the key exists, else append it
(JS objects keep string keys in insertion order). -/
def setKey (m : List (String × Option Nat)) (k : String) (v : Option Nat) :
    List (String × Option Nat) :=
  if hasKey m k then m.map (fun e => if e.1 == k then (e.1, v) else e)
  else m ++ [(k, v)]

/-- `m[k]++`: on a present numeric value add 1; on a present `NaN` stay
`NaN`; on an absent key JS computes `undefined + 1 = NaN` and stores it. -/
def incKey (m : List (String × Option Nat)) (k : String) :
    List (String × Option Nat) :=
  if hasKey m k then
    m.map (fun e => if e.1 == k then (e.1, e.2.map (· + 1)) else e)
  else m ++ [(k, none)]

/-- Read property `k` of a JS object map: the value of the entry carrying
that key (`setKey`/`incKey` keep keys unique, so the first match is the
entry), outer `none` when the key is absent. -/
def lookupKey : List (String × Option Nat) → String → Option (Option Nat)
  | [], _ => none
  | e :: m, k => if e.1 = k then some e.2 else lookupKey m k

/-- `getPlayerStats`: `{}` without a schedule, else initialise every roster
player to 0 and bump once per appearance in any court of any round
(`round.courts.flat().forEach(player => stats[player]++)`). -/
def getPlayerStats (players : List String) (schedule : Option Schedule) :
    List (String × Option Nat) :=
  match schedule with
  | none => []
  | some sch =>
    sch.rounds.foldl
      (fun m round => round.courts.flatten.foldl (fun m p => incKey m p) m)
      (players.foldl (fun m p => setKey m p (some 0)) [])

/-- The players credited by one ledger cell: on `1` the first two players of
the court (`slice(0, 2)`), on `2` the last two (`slice(2, 4)`), else none. -/
def cellCredits (court : List String) (winner : CourtWinner) : List String :=
  match winner with
  | .team1 => court.take 2
  | .team2 => (court.drop 2).take 2
  | _ => []

/-- `getPlayerWins`: `{}` without a schedule, else initialise every roster
player to 0 and credit the winning pair of each set ledger cell.  The source
iterates `winners` with index guards
`if (!schedule.rounds[roundIdx]) return` and
`if (!schedule.rounds[roundIdx].courts[courtIdx]) return`; since an index of
a list is present exactly below its length, that is iteration over
`winners.zip schedule.rounds` resp. `row.zip round.courts`. -/
def getPlayerWins (players : List String) (schedule : Option Schedule)
    (winners : List (List CourtWinner)) : List (String × Option Nat) :=
  match schedule with
  | none => []
  | some sch =>
    (winners.zip sch.rounds).foldl
      (fun m rw =>
        (rw.1.zip rw.2.courts).foldl
          (fun m cw => (cellCredits cw.2 cw.1).foldl (fun m p => incKey m p) m)
          m)
      (players.foldl (fun m p => setKey m p (some 0)) [])

/-- `getLeaderboard`: `Object.entries` of the wins map (our association list
is exactly the entries in insertion order) sorted by descending win count
with the stable comparator `(a, b) => b[1] - a[1]`.  `NaN` values never
occur for states the application reaches; they are read as 0 here. -/
def getLeaderboard (players : List String) (schedule : Option Schedule)
    (winners : List (List CourtWinner)) : List (String × Option Nat) :=
  (getPlayerWins players schedule winners).mergeSort
    (fun a b => b.2.getD 0 ≤ a.2.getD 0)

/-- A JS write `row[i] = w`: in bounds it replaces the cell, past the end it
grows the row to length `i + 1`, the skipped slots reading as `undefined`. -/
def jsWriteCell (row : List CourtWinner) (i : Nat) (w : CourtWinner) :
    List CourtWinner :=
  if i < row.length then row.set i w
  else row ++ List.replicate (i - row.length) CourtWinner.undef ++ [w]

/-- `setCourtWinner(roundIdx, courtIdx, winner)`: copy the table, then
`updated[roundIdx][courtIdx] = winner`.  If `roundIdx` is not an index of
the table, `updated[roundIdx]` is `undefined` and the write throws a
`TypeError`, modelled as `none`. -/
def setCourtWinner (prev : List (List CourtWinner)) (roundIdx courtIdx : Nat)
    (winner : CourtWinner) : Option (List (List CourtWinner)) :=
  if h : roundIdx < prev.length then
    some (prev.set roundIdx (jsWriteCell prev[roundIdx] courtIdx winner))
  else none

/-- The component state relevant to the core logic (`useState` hooks). -/
structure AppState where
  players : List String
  playerInput : String
  courts : Nat
  duration : Nat
  roundDuration : Nat
  schedule : Option Schedule
  error : String
  winners : List (List CourtWinner)
  numRounds : Nat

/-- `handleSubmit`: parse and validate the input; on failure only set the
error text, on success compute the round count and replace roster, schedule
and winners table (`Array(rounds).fill(null).map(() => Array(courts).fill(null))`
is `rounds` fresh rows of `courts` nulls) in one state transition. -/
def handleSubmit (rng : Nat → Nat → Nat) (st : AppState) : AppState :=
  match validatePlayers (parsePlayers st.playerInput) st.courts with
  | some e => { st with error := e }
  | none =>
    { st with
      error := ""
      numRounds := calculateRounds st.duration st.roundDuration st.courts
      players := parsePlayers st.playerInput
      schedule := some (generateSchedule rng (parsePlayers st.playerInput)
        st.courts (calculateRounds st.duration st.roundDuration st.courts))
      winners := List.replicate
        (calculateRounds st.duration st.roundDuration st.courts)
        (List.replicate st.courts CourtWinner.unset) }

/-- `handleRegenerate`: with enough players, recompute the round count and
replace schedule and winners table in one state transition; otherwise do
nothing. -/
def handleRegenerate (rng : Nat → Nat → Nat) (st : AppState) : AppState :=
  if st.courts * 4 ≤ st.players.length then
    let rounds := calculateRounds st.duration st.roundDuration st.courts
    { st with
      numRounds := rounds
      schedule := some (generateSchedule rng st.players st.courts rounds)
      winners := List.replicate rounds (List.replicate st.courts CourtWinner.unset) }
  else st

/-- The count of wins the specification ascribes to player `p`: one per set
ledger cell whose winning pair (positions 0–1 for Team 1, positions 2–3 for
Team 2) contains `p`. -/
def specWins (sch : Schedule) (winners : List (List CourtWinner)) (p : String) :
    Nat :=
  ((winners.zip sch.rounds).map (fun rw =>
      ((rw.1.zip rw.2.courts).map (fun cw =>
          if p ∈ cellCredits cw.2 cw.1 then 1 else 0)).sum)).sum

/-- The value JS stores for `m[k]++`: absent key and `NaN` both give `NaN`
(`none`), a number gives its successor. -/
def jsInc (o : Option (Option Nat)) : Option Nat :=
  match o with
  | some x => x.map (· + 1)
  | none => none

/-- All court appearances of the schedule, in iteration order: the
increments performed by `getPlayerStats`. -/
def statsCredits (sch : Schedule) : List String :=
  sch.rounds.flatMap (fun round => round.courts.flatten)

/-- All win credits of the ledger, in iteration order: the increments
performed by `getPlayerWins`. -/
def winsCredits (sch : Schedule) (winners : List (List CourtWinner)) :
    List String :=
  (winners.zip sch.rounds).flatMap
    (fun rw => (rw.1.zip rw.2.courts).flatMap (fun cw => cellCredits cw.2 cw.1))

/-- Iterating the per-round counter update `n` times, head first (the shape
in which `genRounds` consumes its state). -/
def iterStats (roster : List String) (c : Nat) : (String → Nat) → Nat → (String → Nat)
  | s, 0 => s
  | s, n + 1 => iterStats roster c (stepStats roster c s) n

/-! ### The shuffle is a permutation -/

theorem listSwap_length (l : List String) (i j : Nat) :
    (listSwap l i j).length = l.length := by
  simp [listSwap]

theorem count_listSwap (l : List String) (i j : Nat) (hi : i < l.length)
    (hj : j < l.length) (x : String) :
    (listSwap l i j).count x = l.count x := by
  have hgj : l.getD j "" = l[j] := List.getD_eq_getElem l "" hj
  have hgi : l.getD i "" = l[i] := List.getD_eq_getElem l "" hi
  have hjj : j < (l.set i (l.getD j "")).length := by simpa using hj
  have hset : (l.set i (l.getD j ""))[j] = l[j] := by
    rw [List.getElem_set]
    split
    · exact hgj
    · rfl
  have hmem : (l[i] == x) = true → 1 ≤ l.count x := by
    intro h
    have hx : x ∈ l := by
      have hm : l[i] ∈ l := List.getElem_mem hi
      rwa [eq_of_beq h] at hm
    exact List.count_pos_iff.mpr hx
  unfold listSwap
  rw [List.count_set _ _ _ _ hjj, List.count_set _ _ _ _ hi, hset, hgi, hgj]
  split_ifs with hbi hbj <;>
    first
      | (have hc := hmem hbi; omega)
      | omega

theorem listSwap_perm (l : List String) (i j : Nat) (hi : i < l.length)
    (hj : j < l.length) : (listSwap l i j).Perm l :=
  List.perm_iff_count.mpr (fun x => count_listSwap l i j hi hj x)

theorem fyAux_perm (r : Nat → Nat) :
    ∀ (i : Nat) (l : List String), i < l.length → (fyAux r i l).Perm l := by
  intro i
  induction i with
  | zero => intro l _; simp [fyAux]
  | succ n ih =>
    intro l hl
    have hj : r (n + 1) % (n + 2) < l.length := by
      have := Nat.mod_lt (r (n + 1)) (y := n + 2) (by omega)
      omega
    have hswap := listSwap_perm l (n + 1) (r (n + 1) % (n + 2)) hl hj
    have hlen : n < (listSwap l (n + 1) (r (n + 1) % (n + 2))).length := by
      rw [listSwap_length]; omega
    show (fyAux r n (listSwap l (n + 1) (r (n + 1) % (n + 2)))).Perm l
    exact (ih _ hlen).trans hswap

theorem shuffleArray_perm (r : Nat → Nat) (l : List String) :
    (shuffleArray r l).Perm l := by
  cases l with
  | nil => simp [shuffleArray, fyAux]
  | cons a t =>
    have h : (a :: t).length - 1 < (a :: t).length := by simp
    exact fyAux_perm r _ _ h

theorem shuffleArray_length (r : Nat → Nat) (l : List String) :
    (shuffleArray r l).length = l.length :=
  (shuffleArray_perm r l).length_eq

/-! ### The per-round sort -/

theorem roundSorted_perm (stats : String → Nat) (l : List String) :
    (roundSorted stats l).Perm l :=
  List.mergeSort_perm l _

theorem roundSorted_length (stats : String → Nat) (l : List String) :
    (roundSorted stats l).length = l.length :=
  (roundSorted_perm stats l).length_eq

theorem roundSorted_pairwise (stats : String → Nat) (l : List String) :
    List.Pairwise (fun a b => stats a ≤ stats b) (roundSorted stats l) := by
  have h := @List.sorted_mergeSort String
    (fun a b : String => decide (stats a ≤ stats b))
    (fun a b c hab hbc => by
      simp only [decide_eq_true_eq] at hab hbc ⊢; omega)
    (fun a b => by
      simp only [Bool.or_eq_true, decide_eq_true_eq]; omega)
    l
  exact List.Pairwise.imp (fun hab => by simpa using hab) h

/-! ### Structure of a generated round -/

theorem chunks_flatten :
    ∀ (n : Nat) (l : List String),
      ((List.range n).map (fun c => (l.drop (c * 4)).take 4)).flatten
        = l.take (n * 4) := by
  intro n
  induction n with
  | zero => intro l; simp
  | succ m ih =>
    intro l
    rw [List.range_succ_eq_map, List.map_cons, List.map_map, List.flatten_cons]
    have hmap : (List.range m).map ((fun c => (l.drop (c * 4)).take 4) ∘ Nat.succ)
        = (List.range m).map (fun c => ((l.drop 4).drop (c * 4)).take 4) := by
      apply List.map_congr_left
      intro c _
      simp only [Function.comp_apply]
      have h4 : Nat.succ c * 4 = 4 + c * 4 := by omega
      rw [h4, ← List.drop_drop]
    have hsum : Nat.succ m * 4 = 4 + m * 4 := by omega
    rw [hmap, ih (l.drop 4), hsum, List.take_add]
    simp

theorem genRound_courts_eq (rng : Nat → Nat) (roster : List String) (c : Nat)
    (stats : String → Nat) :
    (genRound rng roster c stats).courts
      = (List.range c).map
          (fun k =>
            ((shuffleArray rng ((roundSorted stats roster).take (c * 4))).drop
                (k * 4)).take 4) :=
  rfl

theorem genRound_resting_eq (rng : Nat → Nat) (roster : List String) (c : Nat)
    (stats : String → Nat) :
    (genRound rng roster c stats).resting
      = (roundSorted stats roster).drop (c * 4) :=
  rfl

theorem selected_length (stats : String → Nat) (roster : List String) (c : Nat)
    (hlen : c * 4 ≤ roster.length) :
    ((roundSorted stats roster).take (c * 4)).length = c * 4 := by
  rw [List.length_take, roundSorted_length]; omega

theorem genRound_flatten (rng : Nat → Nat) (roster : List String) (c : Nat)
    (stats : String → Nat) :
    (genRound rng roster c stats).courts.flatten
      = shuffleArray rng ((roundSorted stats roster).take (c * 4)) := by
  rw [genRound_courts_eq, chunks_flatten]
  apply List.take_of_length_le
  rw [shuffleArray_length, List.length_take]
  omega

theorem genRound_partition (rng : Nat → Nat) (roster : List String) (c : Nat)
    (stats : String → Nat) :
    ((genRound rng roster c stats).courts.flatten
        ++ (genRound rng roster c stats).resting).Perm roster := by
  rw [genRound_flatten rng roster c stats, genRound_resting_eq]
  have h1 : (shuffleArray rng ((roundSorted stats roster).take (c * 4))
        ++ (roundSorted stats roster).drop (c * 4)).Perm
      ((roundSorted stats roster).take (c * 4)
        ++ (roundSorted stats roster).drop (c * 4)) :=
    (shuffleArray_perm _ _).append_right _
  rw [List.take_append_drop] at h1
  exact h1.trans (roundSorted_perm stats roster)

theorem genRound_court_shape (rng : Nat → Nat) (roster : List String) (c : Nat)
    (stats : String → Nat) (hlen : c * 4 ≤ roster.length) :
    ∀ court ∈ (genRound rng roster c stats).courts,
      court.length = 4 ∧
        court.Sublist (shuffleArray rng ((roundSorted stats roster).take (c * 4))) := by
  intro court hc
  rw [genRound_courts_eq] at hc
  simp only [List.mem_map, List.mem_range] at hc
  obtain ⟨k, hk, rfl⟩ := hc
  have hshuf : (shuffleArray rng ((roundSorted stats roster).take (c * 4))).length
      = c * 4 := by
    rw [shuffleArray_length]; exact selected_length stats roster c hlen
  constructor
  · rw [List.length_take, List.length_drop, hshuf]
    omega
  · exact (List.take_sublist _ _).trans (List.drop_sublist _ _)

theorem roundSorted_nodup (stats : String → Nat) (roster : List String)
    (h : roster.Nodup) : (roundSorted stats roster).Nodup :=
  (roundSorted_perm stats roster).nodup_iff.mpr h

theorem shuffled_selected_nodup (rng : Nat → Nat) (stats : String → Nat)
    (roster : List String) (c : Nat) (h : roster.Nodup) :
    (shuffleArray rng ((roundSorted stats roster).take (c * 4))).Nodup :=
  (shuffleArray_perm _ _).nodup_iff.mpr
    ((List.take_sublist _ _).nodup (roundSorted_nodup stats roster h))

theorem genRounds_length (rng : Nat → Nat → Nat) (roster : List String) (c : Nat) :
    ∀ (n idx : Nat) (stats : String → Nat),
      (genRounds rng roster c n idx stats).length = n := by
  intro n
  induction n with
  | zero => intro idx stats; rfl
  | succ m ih => intro idx stats; simp only [genRounds, List.length_cons, ih]

theorem genRounds_mem (rng : Nat → Nat → Nat) (roster : List String) (c : Nat) :
    ∀ (n idx : Nat) (stats : String → Nat) (m : Match),
      m ∈ genRounds rng roster c n idx stats →
      ∃ (r : Nat → Nat) (s : String → Nat), m = genRound r roster c s := by
  intro n
  induction n with
  | zero => intro idx stats m hm; simp [genRounds] at hm
  | succ k ih =>
    intro idx stats m hm
    simp only [genRounds, List.mem_cons] at hm
    rcases hm with h | h
    · exact ⟨rng idx, stats, h⟩
    · exact ih _ _ m h

/-! ### The JS object maps: reading through writes -/


theorem hasKey_true_iff (m : List (String × Option Nat)) (k : String) :
    hasKey m k = true ↔ ∃ x, lookupKey m k = some x := by
  induction m with
  | nil => simp [hasKey, lookupKey]
  | cons e t ih =>
    by_cases hek : e.1 = k
    · simp [hasKey, lookupKey, hek]
    · simp only [hasKey, List.any_cons, Bool.or_eq_true, beq_iff_eq, hek,
        false_or, lookupKey, if_neg hek]
      exact ih

theorem lookupKey_nil (p : String) : lookupKey [] p = none := rfl

theorem lookupKey_cons (c : String × Option Nat) (l : List (String × Option Nat))
    (p : String) :
    lookupKey (c :: l) p = if c.1 = p then some c.2 else lookupKey l p := rfl

theorem lookupKey_mapValue (k : String) (f : Option Nat → Option Nat) :
    ∀ (m : List (String × Option Nat)) (p : String),
      lookupKey (m.map (fun e => if e.1 == k then (e.1, f e.2) else e)) p
        = if p = k then (lookupKey m p).map f else lookupKey m p := by
  intro m
  induction m with
  | nil => intro p; simp [lookupKey]
  | cons e t ih =>
    intro p
    have hhead : ((if (e.1 == k) = true then (e.1, f e.2) else e)).1 = e.1 := by
      split <;> rfl
    simp only [List.map_cons, lookupKey_cons, hhead]
    by_cases hep : e.1 = p
    · by_cases hpk : p = k
      · have hbk : (e.1 == k) = true := by rw [beq_iff_eq, hep, hpk]
        simp [hep, hpk, hbk]
      · have hbk : (e.1 == k) = false := by
          rw [beq_eq_false_iff_ne]
          intro h
          rw [hep] at h
          exact hpk h
        simp [hep, hpk, hbk]
    · by_cases hpk : p = k
      · simp only [if_neg hep, if_pos hpk, ih p]
      · simp only [if_neg hep, if_neg hpk, ih p]

theorem lookupKey_append_single (m : List (String × Option Nat)) (k p : String)
    (v : Option Nat) :
    lookupKey (m ++ [(k, v)]) p
      = (lookupKey m p).or (if p = k then some v else none) := by
  induction m with
  | nil =>
    by_cases hpk : p = k
    · subst hpk
      simp [lookupKey_cons, lookupKey_nil]
    · have hk : ¬k = p := fun h => hpk h.symm
      simp [lookupKey_cons, lookupKey_nil, hpk, hk]
  | cons e t ih =>
    by_cases hep : e.1 = p
    · simp [lookupKey_cons, hep]
    · simp only [List.cons_append, lookupKey_cons, if_neg hep]
      exact ih

theorem lookupKey_setKey (m : List (String × Option Nat)) (k p : String)
    (v : Option Nat) :
    lookupKey (setKey m k v) p = if p = k then some v else lookupKey m p := by
  unfold setKey
  by_cases h : hasKey m k
  · rw [if_pos h]
    have hmap := lookupKey_mapValue k (fun _ => v) m p
    rw [hmap]
    by_cases hpk : p = k
    · subst hpk
      obtain ⟨x, hx⟩ := (hasKey_true_iff m p).mp h
      simp [hx]
    · simp [hpk]
  · rw [if_neg h, lookupKey_append_single]
    by_cases hpk : p = k
    · subst hpk
      have hnone : lookupKey m p = none := by
        cases hl : lookupKey m p with
        | none => rfl
        | some x => exact absurd ((hasKey_true_iff m p).mpr ⟨x, hl⟩) h
      simp [hnone]
    · cases hl : lookupKey m p <;> simp [hl, hpk]

theorem lookupKey_incKey (m : List (String × Option Nat)) (k p : String) :
    lookupKey (incKey m k) p
      = if p = k then some (jsInc (lookupKey m k)) else lookupKey m p := by
  unfold incKey
  by_cases h : hasKey m k
  · rw [if_pos h]
    have hmap := lookupKey_mapValue k (fun x => x.map (· + 1)) m p
    rw [hmap]
    by_cases hpk : p = k
    · subst hpk
      obtain ⟨x, hx⟩ := (hasKey_true_iff m p).mp h
      simp [hx, jsInc]
    · simp [hpk]
  · rw [if_neg h, lookupKey_append_single]
    by_cases hpk : p = k
    · subst hpk
      have hnone : lookupKey m p = none := by
        cases hl : lookupKey m p with
        | none => rfl
        | some x => exact absurd ((hasKey_true_iff m p).mpr ⟨x, hl⟩) h
      simp [hnone, jsInc]
    · cases hl : lookupKey m p <;> simp [hl, hpk]

theorem hasKey_incKey (m : List (String × Option Nat)) (k q : String)
    (h : hasKey m q = true) : hasKey (incKey m k) q = true := by
  obtain ⟨x, hx⟩ := (hasKey_true_iff m q).mp h
  apply (hasKey_true_iff _ q).mpr
  rw [lookupKey_incKey]
  by_cases hqk : q = k
  · exact ⟨jsInc (lookupKey m k), by rw [if_pos hqk]⟩
  · exact ⟨x, by rw [if_neg hqk]; exact hx⟩

theorem foldl_incKey_lookup :
    ∀ (cl : List String) (m : List (String × Option Nat)) (p : String) (n : Nat),
      (∀ q ∈ cl, hasKey m q = true) →
      lookupKey m p = some (some n) →
      lookupKey (cl.foldl (fun m q => incKey m q) m) p
        = some (some (n + cl.count p)) := by
  intro cl
  induction cl with
  | nil => intro m p n _ h; simpa using h
  | cons q cl ih =>
    intro m p n hk hp
    simp only [List.foldl_cons]
    by_cases hpq : p = q
    · subst hpq
      have h1 : lookupKey (incKey m p) p = some (some (n + 1)) := by
        rw [lookupKey_incKey, if_pos rfl, hp]
        rfl
      have h2 := ih (incKey m p) p (n + 1)
        (fun r hr => hasKey_incKey m p r (hk r (List.mem_cons_of_mem _ hr))) h1
      rw [h2, List.count_cons_self]
      congr 2
      omega
    · have h1 : lookupKey (incKey m q) p = some (some n) := by
        rw [lookupKey_incKey, if_neg hpq]
        exact hp
      have h2 := ih (incKey m q) p n
        (fun r hr => hasKey_incKey m q r (hk r (List.mem_cons_of_mem _ hr))) h1
      rw [h2, List.count_cons_of_ne hpq]

theorem lookupKey_initZero :
    ∀ (players : List String) (m : List (String × Option Nat)) (p : String),
      lookupKey (players.foldl (fun m q => setKey m q (some 0)) m) p
        = if p ∈ players then some (some 0) else lookupKey m p := by
  intro players
  induction players with
  | nil => intro m p; simp
  | cons a ps ih =>
    intro m p
    simp only [List.foldl_cons]
    rw [ih]
    by_cases hp : p ∈ ps
    · simp [hp, List.mem_cons]
    · rw [if_neg hp, lookupKey_setKey]
      by_cases hpa : p = a
      · simp [hpa, List.mem_cons]
      · simp [hpa, hp, List.mem_cons]

theorem hasKey_initZero (players : List String) (q : String)
    (hq : q ∈ players) :
    hasKey (players.foldl (fun m p => setKey m p (some 0)) []) q = true := by
  apply (hasKey_true_iff _ q).mpr
  rw [lookupKey_initZero]
  exact ⟨some 0, by rw [if_pos hq]⟩

theorem foldl_foldl_flatMap {α β γ : Type} (g : α → List β) (step : γ → β → γ) :
    ∀ (l : List α) (m : γ),
      l.foldl (fun m x => (g x).foldl step m) m = (l.flatMap g).foldl step m := by
  intro l
  induction l with
  | nil => intro m; rfl
  | cons x xs ih =>
    intro m
    simp only [List.foldl_cons, List.flatMap_cons, List.foldl_append, ih]

/-! ### Games-played counters -/

theorem nextStats_apply :
    ∀ (selected : List String) (stats : String → Nat) (p : String),
      nextStats stats selected p = stats p + selected.count p := by
  intro selected
  induction selected with
  | nil => intro stats p; simp [nextStats]
  | cons a t ih =>
    intro stats p
    show nextStats (fun q => if q = a then stats q + 1 else stats q) t p
        = stats p + (a :: t).count p
    rw [ih]
    by_cases hpa : p = a
    · subst hpa
      rw [if_pos rfl, List.count_cons_self]
      omega
    · rw [if_neg hpa, List.count_cons_of_ne hpa]

theorem stepStats_apply (roster : List String) (c : Nat) (stats : String → Nat)
    (p : String) :
    stepStats roster c stats p
      = stats p + ((roundSorted stats roster).take (c * 4)).count p :=
  nextStats_apply _ _ _

/-! ### Credit lists: the increments performed by the statistics folds -/

theorem getPlayerStats_eq_fold (players : List String) (sch : Schedule) :
    getPlayerStats players (some sch)
      = (statsCredits sch).foldl (fun m p => incKey m p)
          (players.foldl (fun m p => setKey m p (some 0)) []) := by
  unfold getPlayerStats statsCredits
  exact foldl_foldl_flatMap _ _ _ _

theorem getPlayerWins_eq_fold (players : List String) (sch : Schedule)
    (winners : List (List CourtWinner)) :
    getPlayerWins players (some sch) winners
      = (winsCredits sch winners).foldl (fun m p => incKey m p)
          (players.foldl (fun m p => setKey m p (some 0)) []) := by
  unfold getPlayerWins winsCredits
  have hstep :
      (fun (m : List (String × Option Nat)) (rw : List CourtWinner × Match) =>
        (rw.1.zip rw.2.courts).foldl
          (fun m cw => (cellCredits cw.2 cw.1).foldl (fun m p => incKey m p) m) m)
      = fun m rw =>
          ((rw.1.zip rw.2.courts).flatMap (fun cw => cellCredits cw.2 cw.1)).foldl
            (fun m p => incKey m p) m := by
    funext m rw
    exact foldl_foldl_flatMap _ _ _ _
  rw [hstep]
  have h2 := foldl_foldl_flatMap
    (fun rw : List CourtWinner × Match =>
      (rw.1.zip rw.2.courts).flatMap (fun cw => cellCredits cw.2 cw.1))
    (fun (m : List (String × Option Nat)) (p : String) => incKey m p)
    (winners.zip sch.rounds)
    (players.foldl (fun m p => setKey m p (some 0)) [])
  exact h2

theorem getPlayerStats_lookup (players : List String) (sch : Schedule)
    (p : String) (hmem : ∀ q ∈ statsCredits sch, q ∈ players)
    (hp : p ∈ players) :
    lookupKey (getPlayerStats players (some sch)) p
      = some (some ((statsCredits sch).count p)) := by
  rw [getPlayerStats_eq_fold]
  have h := foldl_incKey_lookup (statsCredits sch)
    (players.foldl (fun m p => setKey m p (some 0)) []) p 0
    (fun q hq => hasKey_initZero players q (hmem q hq))
    (by rw [lookupKey_initZero]; rw [if_pos hp])
  rw [h, Nat.zero_add]

theorem getPlayerWins_lookup (players : List String) (sch : Schedule)
    (winners : List (List CourtWinner)) (p : String)
    (hmem : ∀ q ∈ winsCredits sch winners, q ∈ players)
    (hp : p ∈ players) :
    lookupKey (getPlayerWins players (some sch) winners) p
      = some (some ((winsCredits sch winners).count p)) := by
  rw [getPlayerWins_eq_fold]
  have h := foldl_incKey_lookup (winsCredits sch winners)
    (players.foldl (fun m p => setKey m p (some 0)) []) p 0
    (fun q hq => hasKey_initZero players q (hmem q hq))
    (by rw [lookupKey_initZero]; rw [if_pos hp])
  rw [h, Nat.zero_add]

/-! ### Counting win credits cell by cell -/

theorem cellCredits_sublist (court : List String) (cell : CourtWinner) :
    (cellCredits court cell).Sublist court := by
  cases cell with
  | team1 => exact List.take_sublist _ _
  | team2 => exact (List.take_sublist _ _).trans (List.drop_sublist _ _)
  | unset => exact List.nil_sublist _
  | undef => exact List.nil_sublist _

theorem cellCredits_count (court : List String) (cell : CourtWinner) (p : String)
    (hnd : court.Nodup) :
    (cellCredits court cell).count p
      = if p ∈ cellCredits court cell then 1 else 0 := by
  by_cases hm : p ∈ cellCredits court cell
  · rw [if_pos hm,
      List.count_eq_one_of_mem ((cellCredits_sublist court cell).nodup hnd) hm]
  · rw [if_neg hm, List.count_eq_zero_of_not_mem hm]

theorem winsCredits_count (sch : Schedule) (winners : List (List CourtWinner))
    (p : String) (hnd : ∀ m ∈ sch.rounds, ∀ court ∈ m.courts, court.Nodup) :
    (winsCredits sch winners).count p = specWins sch winners p := by
  unfold winsCredits specWins
  rw [List.count_flatMap]
  apply congrArg List.sum
  apply List.map_congr_left
  intro rw hrw
  obtain ⟨row, mtch⟩ := rw
  simp only [Function.comp_apply]
  rw [List.count_flatMap]
  apply congrArg List.sum
  apply List.map_congr_left
  intro cw hcw
  obtain ⟨cell, court⟩ := cw
  simp only [Function.comp_apply]
  have hm2 : mtch ∈ sch.rounds := (List.of_mem_zip hrw).2
  have hc2 : court ∈ mtch.courts := (List.of_mem_zip hcw).2
  exact cellCredits_count court cell p (hnd mtch hm2 court hc2)

/-! ### The two-adjacent-values invariant of the games-played counters -/

theorem sel_rest_le (stats : String → Nat) (roster : List String) (n : Nat) :
    ∀ a ∈ (roundSorted stats roster).take n,
      ∀ b ∈ (roundSorted stats roster).drop n, stats a ≤ stats b := by
  have h := roundSorted_pairwise stats roster
  rw [← List.take_append_drop n (roundSorted stats roster),
    List.pairwise_append] at h
  exact h.2.2

theorem sel_rest_disjoint (stats : String → Nat) (roster : List String) (n : Nat)
    (hnodup : roster.Nodup) :
    ∀ p ∈ (roundSorted stats roster).take n,
      p ∉ (roundSorted stats roster).drop n := by
  have h := roundSorted_nodup stats roster hnodup
  rw [← List.take_append_drop n (roundSorted stats roster),
    List.nodup_append] at h
  intro p hp hq
  exact h.2.2 hp hq

theorem mem_roster_split (stats : String → Nat) (roster : List String)
    (n : Nat) (p : String) :
    p ∈ roster ↔
      (p ∈ (roundSorted stats roster).take n
        ∨ p ∈ (roundSorted stats roster).drop n) := by
  rw [← List.mem_append, List.take_append_drop]
  exact ((roundSorted_perm stats roster).mem_iff).symm

theorem stepStats_two_values (roster : List String) (c : Nat)
    (stats : String → Nat) (hnodup : roster.Nodup) (k : Nat)
    (hinv : ∀ p ∈ roster, stats p = k ∨ stats p = k + 1) :
    ∃ k1, ∀ p ∈ roster,
      stepStats roster c stats p = k1 ∨ stepStats roster c stats p = k1 + 1 := by
  classical
  have hselnd : ((roundSorted stats roster).take (c * 4)).Nodup :=
    (List.take_sublist _ _).nodup (roundSorted_nodup stats roster hnodup)
  by_cases hex : ∃ b ∈ (roundSorted stats roster).drop (c * 4), stats b = k
  · refine ⟨k, ?_⟩
    intro p hp
    rcases (mem_roster_split stats roster (c * 4) p).mp hp with hsel | hrest
    · obtain ⟨b, hb, hbk⟩ := hex
      have hle : stats p ≤ stats b := sel_rest_le stats roster (c * 4) p hsel b hb
      have hpk : stats p = k := by
        rcases hinv p hp with h | h
        · exact h
        · omega
      right
      rw [stepStats_apply, List.count_eq_one_of_mem hselnd hsel, hpk]
    · have hnot : p ∉ (roundSorted stats roster).take (c * 4) := by
        intro h
        exact sel_rest_disjoint stats roster (c * 4) hnodup p h hrest
      rw [stepStats_apply, List.count_eq_zero_of_not_mem hnot, Nat.add_zero]
      exact hinv p hp
  · refine ⟨k + 1, ?_⟩
    intro p hp
    push_neg at hex
    rcases (mem_roster_split stats roster (c * 4) p).mp hp with hsel | hrest
    · rw [stepStats_apply, List.count_eq_one_of_mem hselnd hsel]
      rcases hinv p hp with h | h
      · left; omega
      · right; omega
    · have hk1 : stats p = k + 1 := by
        rcases hinv p hp with h | h
        · exact absurd h (hex p hrest)
        · exact h
      left
      have hnot : p ∉ (roundSorted stats roster).take (c * 4) := by
        intro h
        exact sel_rest_disjoint stats roster (c * 4) hnodup p h hrest
      rw [stepStats_apply, List.count_eq_zero_of_not_mem hnot, Nat.add_zero, hk1]

theorem statsAfter_two_values (roster : List String) (c : Nat)
    (hnodup : roster.Nodup) :
    ∀ k : Nat, ∃ k0, ∀ p ∈ roster,
      statsAfter roster c k p = k0 ∨ statsAfter roster c k p = k0 + 1 := by
  intro k
  induction k with
  | zero => exact ⟨0, fun p _ => Or.inl rfl⟩
  | succ n ih =>
    obtain ⟨k0, hk0⟩ := ih
    exact stepStats_two_values roster c _ hnodup k0 hk0

/-! ### Relating the threaded counters to the derived statistics -/


theorem iterStats_succ (roster : List String) (c : Nat) :
    ∀ (n : Nat) (s : String → Nat),
      iterStats roster c s (n + 1) = stepStats roster c (iterStats roster c s n) := by
  intro n
  induction n with
  | zero => intro s; rfl
  | succ m ih =>
    intro s
    show iterStats roster c (stepStats roster c s) (m + 1) = _
    rw [ih]
    rfl

theorem statsAfter_eq_iterStats (roster : List String) (c : Nat) :
    ∀ n : Nat, statsAfter roster c n = iterStats roster c (fun _ => 0) n := by
  intro n
  induction n with
  | zero => rfl
  | succ m ih =>
    show stepStats roster c (statsAfter roster c m) = _
    rw [ih, ← iterStats_succ]

theorem genRound_flat_count (rng : Nat → Nat) (roster : List String) (c : Nat)
    (stats : String → Nat) (p : String) :
    ((genRound rng roster c stats).courts.flatten).count p
      = ((roundSorted stats roster).take (c * 4)).count p := by
  rw [genRound_flatten]
  exact (shuffleArray_perm _ _).count_eq p

theorem genRounds_flat_count (rng : Nat → Nat → Nat) (roster : List String)
    (c : Nat) :
    ∀ (n idx : Nat) (s : String → Nat) (p : String),
      ((genRounds rng roster c n idx s).flatMap
          (fun m => m.courts.flatten)).count p + s p
        = iterStats roster c s n p := by
  intro n
  induction n with
  | zero => intro idx s p; simp [genRounds, iterStats]
  | succ m ih =>
    intro idx s p
    simp only [genRounds, List.flatMap_cons, List.count_append]
    have hrec : iterStats roster c s (m + 1)
        = iterStats roster c (stepStats roster c s) m := rfl
    rw [hrec, ← ih (idx + 1) (stepStats roster c s) p, genRound_flat_count]
    have hstep := stepStats_apply roster c s p
    omega

theorem statsCredits_count (rng : Nat → Nat → Nat) (roster : List String)
    (c R : Nat) (p : String) :
    (statsCredits (generateSchedule rng roster c R)).count p
      = statsAfter roster c R p := by
  have h := genRounds_flat_count rng roster c R 0 (fun _ => 0) p
  rw [statsAfter_eq_iterStats]
  unfold statsCredits generateSchedule
  show ((genRounds rng roster c R 0 fun _ => 0).flatMap
      fun round => round.courts.flatten).count p = _
  omega

theorem genRound_flat_mem (rng : Nat → Nat) (roster : List String) (c : Nat)
    (stats : String → Nat) (q : String)
    (hq : q ∈ (genRound rng roster c stats).courts.flatten) : q ∈ roster := by
  rw [genRound_flatten] at hq
  have h1 : q ∈ (roundSorted stats roster).take (c * 4) :=
    (shuffleArray_perm _ _).mem_iff.mp hq
  have h2 : q ∈ roundSorted stats roster := (List.take_sublist _ _).mem h1
  exact (roundSorted_perm stats roster).mem_iff.mp h2

theorem statsCredits_mem (rng : Nat → Nat → Nat) (roster : List String)
    (c R : Nat) (q : String)
    (hq : q ∈ statsCredits (generateSchedule rng roster c R)) : q ∈ roster := by
  unfold statsCredits generateSchedule at hq
  simp only [List.mem_flatMap] at hq
  obtain ⟨m, hm, hqm⟩ := hq
  obtain ⟨r, s, rfl⟩ := genRounds_mem rng roster c R 0 (fun _ => 0) m hm
  exact genRound_flat_mem r roster c s q hqm

/-! ### Remaining helper lemmas -/

theorem winsCredits_mem (sch : Schedule) (winners : List (List CourtWinner))
    (players : List String)
    (hc : ∀ m ∈ sch.rounds, ∀ court ∈ m.courts, ∀ q ∈ court, q ∈ players) :
    ∀ q ∈ winsCredits sch winners, q ∈ players := by
  intro q hq
  unfold winsCredits at hq
  simp only [List.mem_flatMap] at hq
  obtain ⟨rw, hrw, cw, hcw, hq2⟩ := hq
  have hm : rw.2 ∈ sch.rounds := (List.of_mem_zip hrw).2
  have hcourt : cw.2 ∈ rw.2.courts := (List.of_mem_zip hcw).2
  exact hc rw.2 hm cw.2 hcourt q ((cellCredits_sublist cw.2 cw.1).mem hq2)

theorem specWins_cons (cell : CourtWinner) (r0 : List CourtWinner)
    (wrest : List (List CourtWinner)) (m0 : Match) (mrest : List Match)
    (court0 : List String) (crest : List (List String))
    (hc : m0.courts = court0 :: crest) (p : String) :
    specWins ⟨m0 :: mrest⟩ ((cell :: r0) :: wrest) p
      = specWins ⟨m0 :: mrest⟩ ((CourtWinner.unset :: r0) :: wrest) p
        + (if p ∈ cellCredits court0 cell then 1 else 0) := by
  unfold specWins
  simp only [List.zip_cons_cons, List.map_cons, List.sum_cons, hc]
  have hunset : (if p ∈ cellCredits court0 CourtWinner.unset then 1 else 0) = 0 := by
    simp [cellCredits]
  rw [hunset]
  omega

theorem winsCredits_unset (sch : Schedule) (rounds courts : Nat) :
    winsCredits sch
      (List.replicate rounds (List.replicate courts CourtWinner.unset)) = [] := by
  unfold winsCredits
  rw [List.flatMap_eq_nil_iff]
  intro rw hrw
  rw [List.flatMap_eq_nil_iff]
  intro cw hcw
  have hrow : rw.1 ∈ List.replicate rounds (List.replicate courts CourtWinner.unset) :=
    (List.of_mem_zip hrw).1
  have hcell : cw.1 ∈ rw.1 := (List.of_mem_zip hcw).1
  rw [List.eq_of_mem_replicate hrow] at hcell
  rw [List.eq_of_mem_replicate hcell]
  rfl

theorem dedup_length_eq_iff (l : List String) :
    l.dedup.length = l.length ↔ l.Nodup := by
  constructor
  · intro h
    have hsub : l.dedup.Sublist l := List.dedup_sublist l
    have heq : l.dedup = l := hsub.eq_of_length h
    rw [← heq]
    exact List.nodup_dedup l
  · intro h
    rw [List.dedup_eq_self.mpr h]

theorem statsAfter_exact (roster : List String) (c : Nat)
    (hnodup : roster.Nodup) (hlen : roster.length = c * 4) :
    ∀ k : Nat, ∀ p ∈ roster, statsAfter roster c k p = k := by
  intro k
  induction k with
  | zero => intro p _; rfl
  | succ n ih =>
    intro p hp
    show stepStats roster c (statsAfter roster c n) p = n + 1
    rw [stepStats_apply, ih p hp]
    have htake : (roundSorted (statsAfter roster c n) roster).take (c * 4)
        = roundSorted (statsAfter roster c n) roster :=
      List.take_of_length_le (by rw [roundSorted_length, hlen])
    rw [htake]
    have hcount : (roundSorted (statsAfter roster c n) roster).count p = 1 := by
      rw [(roundSorted_perm _ roster).count_eq]
      exact List.count_eq_one_of_mem hnodup hp
    rw [hcount]

theorem calculateRounds_eq (d m c : Nat) :
    calculateRounds d m c = max c (d * 60 / m / c * c) := by
  show (if d * 60 / m / c * c < c then c else d * 60 / m / c * c)
      = max c (d * 60 / m / c * c)
  generalize (d * 60 / m / c * c) = r
  split_ifs with h <;> omega

/-! ### Claim theorems -/

/-- C3: for all positive inputs, `calculateRounds durationHours roundMinutes
courtCount` equals `max courtCount ((durationHours*60/roundMinutes) / courtCount
* courtCount)` — the raw round count floored to a multiple of the court count
and clamped up to at least `courtCount`; in particular
`calculateRounds 2 15 2 = 8` and `calculateRounds 1 50 3 = 3`. -/
theorem calculateRounds_spec (d m c : Nat) (hd : 0 < d) (hm : 0 < m)
    (hc : 0 < c) :
    calculateRounds d m c = max c (d * 60 / m / c * c)
      ∧ calculateRounds 2 15 2 = 8 ∧ calculateRounds 1 50 3 = 3 :=
  ⟨calculateRounds_eq d m c, by decide, by decide⟩

theorem calculateRounds_spec_witness :
    calculateRounds 2 15 2 = max 2 (2 * 60 / 15 / 2 * 2)
      ∧ calculateRounds 2 15 2 = 8 ∧ calculateRounds 1 50 3 = 3 :=
  calculateRounds_spec 2 15 2 (by decide) (by decide) (by decide)

/-- C9: when no Schedule exists, `getPlayerStats`, `getPlayerWins` and
`getLeaderboard` all return an empty result instead of failing. -/
theorem noSchedule_empty :
    (∀ players : List String, getPlayerStats players none = [])
      ∧ (∀ (players : List String) (w : List (List CourtWinner)),
          getPlayerWins players none w = [])
      ∧ (∀ (players : List String) (w : List (List CourtWinner)),
          getLeaderboard players none w = []) := by
  refine ⟨fun _ => rfl, fun _ _ => rfl, fun players w => ?_⟩
  unfold getLeaderboard
  rw [show getPlayerWins players none w = [] from rfl, List.mergeSort_nil]

/-- C7: the per-round sort of `generateSchedule` is a stable sort by current
games played of a fresh copy of the original roster (`genRound` applies
`roundSorted stats playerNames` to the unmodified roster in every round,
never to a previous round's order): whenever two players are tied on games
played, the one appearing earlier in the original roster precedes the other
in the sorted order. -/
theorem roundSorted_stable (stats : String → Nat) (roster : List String)
    (a b : String) (htie : stats a = stats b) (hab : [a, b].Sublist roster) :
    [a, b].Sublist (roundSorted stats roster) := by
  unfold roundSorted
  apply List.pair_sublist_mergeSort
  · intro x y z hxy hyz
    simp only [decide_eq_true_eq] at hxy hyz ⊢
    omega
  · intro x y
    simp only [Bool.or_eq_true, decide_eq_true_eq]
    omega
  · simp [htie]
  · exact hab

theorem roundSorted_stable_witness :
    ["A", "B"].Sublist (roundSorted (fun _ => 0) ["A", "B"]) :=
  roundSorted_stable (fun _ => 0) ["A", "B"] "A" "B" rfl (by decide)

/-- C1 (counterexample): `setCourtWinner` on the 1×1 table `[[unset]]` with
`courtIndex = 2` is neither a no-op nor an error result: it silently grows
row 0 to 3 cells (the claim forbids growing beyond the rounds×courts
dimensions); and with `roundIndex = 1` the write throws a `TypeError`
(`none` models the crash), rather than failing gracefully. -/
theorem setCourtWinner_oob_counterexample :
    setCourtWinner [[CourtWinner.unset]] 0 2 CourtWinner.team1
        = some [[CourtWinner.unset, CourtWinner.undef, CourtWinner.team1]]
      ∧ ¬ setCourtWinner [[CourtWinner.unset]] 0 2 CourtWinner.team1
          = some [[CourtWinner.unset]]
      ∧ setCourtWinner [[CourtWinner.unset]] 1 0 CourtWinner.team1 = none := by
  refine ⟨?_, ?_, ?_⟩ <;> decide

/-- C1 (amended): for nonnegative indices, `setCourtWinner` with
`roundIdx ≥` the table's row count throws a `TypeError` (modelled `none`,
a crash) instead of a graceful no-op; with `roundIdx` in bounds and
`courtIdx ≥` that row's length it silently grows the row to `courtIdx + 1`
cells; only a fully in-bounds call replaces the addressed cell in place,
preserving both the row count and the row length. -/
theorem setCourtWinner_amended (prev : List (List CourtWinner)) (r c : Nat)
    (w : CourtWinner) :
    (prev.length ≤ r → setCourtWinner prev r c w = none) ∧
    (∀ h : r < prev.length,
      (c < prev[r].length →
        setCourtWinner prev r c w = some (prev.set r (prev[r].set c w))
          ∧ (prev.set r (prev[r].set c w)).length = prev.length
          ∧ (prev[r].set c w).length = prev[r].length) ∧
      (prev[r].length ≤ c →
        setCourtWinner prev r c w
            = some (prev.set r
                (prev[r] ++ List.replicate (c - prev[r].length) CourtWinner.undef
                  ++ [w]))
          ∧ (prev[r] ++ List.replicate (c - prev[r].length) CourtWinner.undef
              ++ [w]).length = c + 1)) := by
  refine ⟨?_, ?_⟩
  · intro hle
    unfold setCourtWinner
    rw [dif_neg]
    omega
  · intro h
    constructor
    · intro hc
      refine ⟨?_, by simp, by simp⟩
      unfold setCourtWinner
      rw [dif_pos h]
      unfold jsWriteCell
      rw [if_pos hc]
    · intro hc
      constructor
      · unfold setCourtWinner
        rw [dif_pos h]
        unfold jsWriteCell
        rw [if_neg (by omega)]
      · simp only [List.length_append, List.length_replicate,
          List.length_singleton]
        omega

theorem setCourtWinner_amended_witness :
    setCourtWinner [[CourtWinner.unset]] 1 0 CourtWinner.team1 = none :=
  (setCourtWinner_amended [[CourtWinner.unset]] 1 0 CourtWinner.team1).1
    (by decide)

/-- C2: for every random source, duplicate-free roster of nonempty names with
at least `courtCount * 4` players, `courtCount ≥ 1` and any `roundCount`,
`generateSchedule` yields exactly `roundCount` rounds, and every round has
exactly `courtCount` courts of exactly 4 distinct players, a total of
`courtCount * 4` assigned players, and assigned ++ resting a permutation of
the roster in which every roster name appears exactly once. -/
theorem generateSchedule_partition (rng : Nat → Nat → Nat)
    (roster : List String) (c R : Nat) (hnodup : roster.Nodup)
    (hnames : ∀ x ∈ roster, x ≠ "") (hc : 1 ≤ c)
    (hlen : c * 4 ≤ roster.length) :
    (generateSchedule rng roster c R).rounds.length = R ∧
    ∀ m ∈ (generateSchedule rng roster c R).rounds,
      m.courts.length = c ∧
      (∀ court ∈ m.courts, court.length = 4 ∧ court.Nodup) ∧
      m.courts.flatten.length = c * 4 ∧
      (m.courts.flatten ++ m.resting).Perm roster ∧
      (∀ x ∈ roster, (m.courts.flatten ++ m.resting).count x = 1) := by
  constructor
  · exact genRounds_length rng roster c R 0 _
  · intro m hm
    obtain ⟨r, s, rfl⟩ := genRounds_mem rng roster c R 0 (fun _ => 0) m hm
    refine ⟨?_, ?_, ?_, genRound_partition r roster c s, ?_⟩
    · rw [genRound_courts_eq]
      simp
    · intro court hcourt
      obtain ⟨h4, hsub⟩ := genRound_court_shape r roster c s hlen court hcourt
      exact ⟨h4, hsub.nodup (shuffled_selected_nodup r s roster c hnodup)⟩
    · rw [genRound_flatten, shuffleArray_length, selected_length s roster c hlen]
    · intro x hx
      rw [(genRound_partition r roster c s).count_eq]
      exact List.count_eq_one_of_mem hnodup hx

theorem generateSchedule_partition_witness :
    (generateSchedule (fun _ _ => 0) ["A", "B", "C", "D", "E"] 1 3).rounds.length
      = 3 :=
  (generateSchedule_partition (fun _ _ => 0) ["A", "B", "C", "D", "E"] 1 3
    (by decide) (by decide) (by decide) (by decide)).1

/-- C6: when the roster size is exactly `courtCount * 4`, every generated
round has an empty resting list and `getPlayerStats` (the derived
games-played counts) assigns every player exactly `roundCount` games, so
`max(gamesPlayed) - min(gamesPlayed) = 0 ≤ 1`. -/
theorem generateSchedule_exact (rng : Nat → Nat → Nat) (roster : List String)
    (c R : Nat) (hnodup : roster.Nodup) (hlen : roster.length = c * 4) :
    (∀ m ∈ (generateSchedule rng roster c R).rounds, m.resting = []) ∧
    (∀ p ∈ roster,
      lookupKey (getPlayerStats roster (some (generateSchedule rng roster c R))) p
        = some (some R)) ∧
    (∀ p ∈ roster, ∀ q ∈ roster, ∀ np nq : Nat,
      lookupKey (getPlayerStats roster (some (generateSchedule rng roster c R))) p
          = some (some np) →
      lookupKey (getPlayerStats roster (some (generateSchedule rng roster c R))) q
          = some (some nq) →
      np ≤ nq + 1) := by
  have hstats : ∀ p ∈ roster,
      lookupKey (getPlayerStats roster (some (generateSchedule rng roster c R))) p
        = some (some R) := by
    intro p hp
    rw [getPlayerStats_lookup roster _ p
        (fun q hq => statsCredits_mem rng roster c R q hq) hp,
      statsCredits_count, statsAfter_exact roster c hnodup hlen R p hp]
  refine ⟨?_, hstats, ?_⟩
  · intro m hm
    obtain ⟨r, s, rfl⟩ := genRounds_mem rng roster c R 0 (fun _ => 0) m hm
    rw [genRound_resting_eq]
    apply List.drop_eq_nil_of_le
    rw [roundSorted_length, hlen]
  · intro p hp q hq np nq hnp hnq
    rw [hstats p hp] at hnp
    rw [hstats q hq] at hnq
    have h1 : np = R := by
      have := Option.some.inj hnp
      exact (Option.some.inj this).symm
    have h2 : nq = R := by
      have := Option.some.inj hnq
      exact (Option.some.inj this).symm
    omega

theorem generateSchedule_exact_witness :
    lookupKey (getPlayerStats ["A", "B", "C", "D"]
        (some (generateSchedule (fun _ _ => 0) ["A", "B", "C", "D"] 1 2))) "A"
      = some (some 2) :=
  (generateSchedule_exact (fun _ _ => 0) ["A", "B", "C", "D"] 1 2
    (by decide) (by decide)).2.1 "A" (by decide)

/-- C10: for every duplicate-free roster with at least `courtCount * 4`
players, the cumulative games-played counters maintained by
`generateSchedule` take at most two adjacent values after every round —
`statsAfter` is the threaded counter after `k` rounds, and the derived
`getPlayerStats` of a `roundCount`-round schedule coincides with
`statsAfter roundCount`, so the bound `max - min ≤ 1` holds after every
round of every generated schedule. -/
theorem generateSchedule_balanced (rng : Nat → Nat → Nat)
    (roster : List String) (c R : Nat) (hnodup : roster.Nodup) (hc : 1 ≤ c)
    (hlen : c * 4 ≤ roster.length) :
    (∀ k : Nat, ∀ p ∈ roster, ∀ q ∈ roster,
      statsAfter roster c k p ≤ statsAfter roster c k q + 1) ∧
    (∀ p ∈ roster,
      lookupKey (getPlayerStats roster (some (generateSchedule rng roster c R))) p
        = some (some (statsAfter roster c R p))) := by
  constructor
  · intro k p hp q hq
    obtain ⟨k0, hk0⟩ := statsAfter_two_values roster c hnodup k
    rcases hk0 p hp with h1 | h1 <;> rcases hk0 q hq with h2 | h2 <;> omega
  · intro p hp
    rw [getPlayerStats_lookup roster _ p
        (fun q hq => statsCredits_mem rng roster c R q hq) hp,
      statsCredits_count]

theorem generateSchedule_balanced_witness :
    statsAfter ["A", "B", "C", "D", "E"] 1 3 "A"
      ≤ statsAfter ["A", "B", "C", "D", "E"] 1 3 "B" + 1 :=
  (generateSchedule_balanced (fun _ _ => 0) ["A", "B", "C", "D", "E"] 1 3
    (by decide) (by decide) (by decide)).1 3 "A" (by decide) "B" (by decide)

/-- C4: `validatePlayers` returns `none` exactly when all five rules pass,
and otherwise the first applicable violation in the order (1) fewer than 4
players (reporting the actual count), (2) court count below 1, (3) fewer
than `courtCount*4` players, (4) more courts than `⌊players/4⌋` (implied by
rule 3, hence never the first failure), (5) duplicate names, compared
case-sensitively; on pre-trimmed input (the precondition the spec grants
this component — the caller `parsePlayers` trims every name) this is the
comparison of the trimmed names, stated here as the `map String.trim`-guarded
conjunct.  In particular `validatePlayers ["A","B","C"] 1` reports the
insufficient-players error with the actual count 3. -/
theorem validatePlayers_spec (ps : List String) (c : Nat) :
    (validatePlayers ps c = none ↔
      (4 ≤ ps.length ∧ 1 ≤ c ∧ c * 4 ≤ ps.length ∧ c ≤ ps.length / 4
        ∧ ps.Nodup)) ∧
    (ps.length < 4 → validatePlayers ps c = some (msgAtLeast4 ps.length)) ∧
    (4 ≤ ps.length → c < 1 → validatePlayers ps c = some msgCourtCount) ∧
    (4 ≤ ps.length → 1 ≤ c → ps.length < c * 4 →
      validatePlayers ps c = some (msgNeedPlayers c)) ∧
    (4 ≤ ps.length → 1 ≤ c → c * 4 ≤ ps.length →
      ¬ ps.Nodup → validatePlayers ps c = some msgUnique) ∧
    (ps.map String.trim = ps →
      4 ≤ ps.length → 1 ≤ c → c * 4 ≤ ps.length →
      ¬ (ps.map String.trim).Nodup → validatePlayers ps c = some msgUnique) ∧
    validatePlayers ["A", "B", "C"] 1 = some (msgAtLeast4 3) ∧
    msgAtLeast4 3 = "Please enter at least 4 players. You entered 3." := by
  have hdiv : c * 4 ≤ ps.length → c ≤ ps.length / 4 := fun hcc =>
    (Nat.le_div_iff_mul_le (by omega)).mpr hcc
  have hdup : 4 ≤ ps.length → 1 ≤ c → c * 4 ≤ ps.length →
      ¬ ps.Nodup → validatePlayers ps c = some msgUnique := by
    intro h4 hc h3 hnd
    unfold validatePlayers
    rw [if_neg (by omega), if_neg (by omega), if_neg (by omega),
      if_neg (by have := hdiv h3; omega)]
    rw [if_pos]
    intro hlen
    exact hnd ((dedup_length_eq_iff ps).mp hlen)
  refine ⟨?_, ?_, ?_, ?_, hdup, ?_, by decide, by decide⟩
  · unfold validatePlayers
    split_ifs with h1 h2 h3 h4 h5
    · exact iff_of_false (by simp) (fun hcon => absurd hcon.1 (by omega))
    · exact iff_of_false (by simp) (fun hcon => absurd hcon.2.1 (by omega))
    · exact iff_of_false (by simp) (fun hcon => absurd hcon.2.2.1 (by omega))
    · exact iff_of_false (by simp)
        (fun hcon => absurd hcon.2.2.2.1 (by omega))
    · refine iff_of_false (by simp) (fun hcon => ?_)
      exact h5 ((dedup_length_eq_iff ps).mpr hcon.2.2.2.2)
    · refine iff_of_true rfl
        ⟨by omega, by omega, by omega, hdiv (by omega),
          (dedup_length_eq_iff ps).mp (by omega)⟩
  · intro h
    unfold validatePlayers
    rw [if_pos h]
  · intro h4 hc
    unfold validatePlayers
    rw [if_neg (by omega), if_pos hc]
  · intro h4 hc h3
    unfold validatePlayers
    rw [if_neg (by omega), if_neg (by omega), if_pos h3]
  · intro htrim h4 hc h3 hnd
    rw [htrim] at hnd
    exact hdup h4 hc h3 hnd

theorem validatePlayers_spec_witness :
    validatePlayers ["A", "B", "C"] 1 = some (msgAtLeast4 3) :=
  (validatePlayers_spec ["A", "B", "C"] 1).2.1 (by decide)

/-- C5: (first part) for every schedule whose courts are duplicate-free and
drawn from the roster, and every ledger, `getPlayerWins` gives each roster
player exactly the specification count `specWins`: one per set ledger cell
whose winning pair (court positions 0–1 for Team 1, 2–3 for Team 2)
contains the player, `Unset` cells contributing nothing.  (Second part)
consequently, setting cell (0,0) of a previously-unset ledger to Team 1 on a
court `[P1,P2,P3,P4]` credits exactly `P1` and `P2` with +1 and leaves `P3`
and `P4` unchanged, and then setting the cell back to Unset restores the
whole wins table to its prior value. -/
theorem getPlayerWins_spec :
    (∀ (players : List String) (sch : Schedule) (w : List (List CourtWinner))
        (p : String),
      players.Nodup →
      (∀ m ∈ sch.rounds, ∀ court ∈ m.courts,
        court.Nodup ∧ ∀ q ∈ court, q ∈ players) →
      p ∈ players →
      lookupKey (getPlayerWins players (some sch) w) p
        = some (some (specWins sch w p))) ∧
    (∀ (players : List String) (m0 : Match) (mrest : List Match)
        (P1 P2 P3 P4 : String) (crest : List (List String))
        (r0 : List CourtWinner) (wrest w1 w2 : List (List CourtWinner)),
      players.Nodup →
      (∀ m ∈ (Schedule.mk (m0 :: mrest)).rounds, ∀ court ∈ m.courts,
        court.Nodup ∧ ∀ q ∈ court, q ∈ players) →
      m0.courts = [P1, P2, P3, P4] :: crest →
      setCourtWinner ((CourtWinner.unset :: r0) :: wrest) 0 0
          CourtWinner.team1 = some w1 →
      setCourtWinner w1 0 0 CourtWinner.unset = some w2 →
      (lookupKey (getPlayerWins players (some ⟨m0 :: mrest⟩) w1) P1
          = some (some (specWins ⟨m0 :: mrest⟩
              ((CourtWinner.unset :: r0) :: wrest) P1 + 1))
        ∧ lookupKey (getPlayerWins players (some ⟨m0 :: mrest⟩) w1) P2
          = some (some (specWins ⟨m0 :: mrest⟩
              ((CourtWinner.unset :: r0) :: wrest) P2 + 1))
        ∧ lookupKey (getPlayerWins players (some ⟨m0 :: mrest⟩) w1) P3
          = some (some (specWins ⟨m0 :: mrest⟩
              ((CourtWinner.unset :: r0) :: wrest) P3))
        ∧ lookupKey (getPlayerWins players (some ⟨m0 :: mrest⟩) w1) P4
          = some (some (specWins ⟨m0 :: mrest⟩
              ((CourtWinner.unset :: r0) :: wrest) P4))
        ∧ getPlayerWins players (some ⟨m0 :: mrest⟩) w2
          = getPlayerWins players (some ⟨m0 :: mrest⟩)
              ((CourtWinner.unset :: r0) :: wrest))) := by
  have hgen : ∀ (players : List String) (sch : Schedule)
      (w : List (List CourtWinner)) (p : String),
      players.Nodup →
      (∀ m ∈ sch.rounds, ∀ court ∈ m.courts,
        court.Nodup ∧ ∀ q ∈ court, q ∈ players) →
      p ∈ players →
      lookupKey (getPlayerWins players (some sch) w) p
        = some (some (specWins sch w p)) := by
    intro players sch w p hnodup hcourts hp
    rw [getPlayerWins_lookup players sch w p
        (winsCredits_mem sch w players
          (fun m hm court hc q hq => (hcourts m hm court hc).2 q hq)) hp,
      winsCredits_count sch w p (fun m hm court hc => (hcourts m hm court hc).1)]
  refine ⟨hgen, ?_⟩
  intro players m0 mrest P1 P2 P3 P4 crest r0 wrest w1 w2 hnodup hcourts hm0
    hset1 hset2
  have hw1 : w1 = (CourtWinner.team1 :: r0) :: wrest := by
    have h := hset1
    unfold setCourtWinner at h
    rw [dif_pos (by simp)] at h
    simp [jsWriteCell] at h
    exact h.symm
  have hw2 : w2 = (CourtWinner.unset :: r0) :: wrest := by
    have h := hset2
    rw [hw1] at h
    unfold setCourtWinner at h
    rw [dif_pos (by simp)] at h
    simp [jsWriteCell] at h
    exact h.symm
  have hm0mem : m0 ∈ (Schedule.mk (m0 :: mrest)).rounds :=
    List.mem_cons_self _ _
  have hcourt0 : [P1, P2, P3, P4] ∈ m0.courts := by
    rw [hm0]
    exact List.mem_cons_self _ _
  obtain ⟨hcnd, hcmem⟩ := hcourts m0 hm0mem [P1, P2, P3, P4] hcourt0
  have hP1 : P1 ∈ players := hcmem P1 (by simp)
  have hP2 : P2 ∈ players := hcmem P2 (by simp)
  have hP3 : P3 ∈ players := hcmem P3 (by simp)
  have hP4 : P4 ∈ players := hcmem P4 (by simp)
  have hne31 : P3 ≠ P1 := fun h => by subst h; simp at hcnd
  have hne32 : P3 ≠ P2 := fun h => by subst h; simp at hcnd
  have hne41 : P4 ≠ P1 := fun h => by subst h; simp at hcnd
  have hne42 : P4 ≠ P2 := fun h => by subst h; simp at hcnd
  have key : ∀ p, p ∈ players →
      lookupKey (getPlayerWins players (some ⟨m0 :: mrest⟩) w1) p
        = some (some (specWins ⟨m0 :: mrest⟩ w1 p)) :=
    fun p hp => hgen players _ w1 p hnodup hcourts hp
  refine ⟨?_, ?_, ?_, ?_, by rw [hw2]⟩
  · rw [key P1 hP1, hw1,
      specWins_cons CourtWinner.team1 r0 wrest m0 mrest _ crest hm0 P1]
    have hmem : P1 ∈ cellCredits [P1, P2, P3, P4] CourtWinner.team1 := by
      simp [cellCredits]
    rw [if_pos hmem]
  · rw [key P2 hP2, hw1,
      specWins_cons CourtWinner.team1 r0 wrest m0 mrest _ crest hm0 P2]
    have hmem : P2 ∈ cellCredits [P1, P2, P3, P4] CourtWinner.team1 := by
      simp [cellCredits]
    rw [if_pos hmem]
  · rw [key P3 hP3, hw1,
      specWins_cons CourtWinner.team1 r0 wrest m0 mrest _ crest hm0 P3]
    have hmem : P3 ∉ cellCredits [P1, P2, P3, P4] CourtWinner.team1 := by
      simp [cellCredits, hne31, hne32]
    rw [if_neg hmem, Nat.add_zero]
  · rw [key P4 hP4, hw1,
      specWins_cons CourtWinner.team1 r0 wrest m0 mrest _ crest hm0 P4]
    have hmem : P4 ∉ cellCredits [P1, P2, P3, P4] CourtWinner.team1 := by
      simp [cellCredits, hne41, hne42]
    rw [if_neg hmem, Nat.add_zero]

theorem getPlayerWins_spec_witness :
    lookupKey
        (getPlayerWins ["A", "B", "C", "D"]
          (some ⟨[⟨[["A", "B", "C", "D"]], []⟩]⟩) [[CourtWinner.team1]]) "A"
      = some (some (specWins ⟨[⟨[["A", "B", "C", "D"]], []⟩]⟩
          [[CourtWinner.unset]] "A" + 1)) :=
  (getPlayerWins_spec.2 ["A", "B", "C", "D"] ⟨[["A", "B", "C", "D"]], []⟩ []
    "A" "B" "C" "D" [] [] [] [[CourtWinner.team1]] [[CourtWinner.unset]]
    (by decide) (by decide) (by decide) (by decide) (by decide)).1

/-- C8: every state transition that replaces the Schedule replaces the
winners ledger in the same transition with a fresh table of exactly
`rounds` rows of `courts` cells, all Unset, discarding all previously
recorded winner selections (every roster player's derived win count in the
new state is 0); `handleSubmit` on invalid input and `handleRegenerate`
with too few players replace neither. -/
theorem handlers_reset_ledger (rng : Nat → Nat → Nat) (st : AppState) :
    (∀ e, validatePlayers (parsePlayers st.playerInput) st.courts = some e →
      handleSubmit rng st = { st with error := e }) ∧
    (validatePlayers (parsePlayers st.playerInput) st.courts = none →
      ((handleSubmit rng st).schedule
          = some (generateSchedule rng (parsePlayers st.playerInput) st.courts
              (calculateRounds st.duration st.roundDuration st.courts))
        ∧ (handleSubmit rng st).winners
          = List.replicate (calculateRounds st.duration st.roundDuration st.courts)
              (List.replicate st.courts CourtWinner.unset)
        ∧ (handleSubmit rng st).numRounds
          = calculateRounds st.duration st.roundDuration st.courts
        ∧ (handleSubmit rng st).winners.length
          = calculateRounds st.duration st.roundDuration st.courts
        ∧ (∀ row ∈ (handleSubmit rng st).winners,
            row.length = st.courts ∧ ∀ x ∈ row, x = CourtWinner.unset)
        ∧ (handleSubmit rng st).schedule.map (fun s => s.rounds.length)
          = some (calculateRounds st.duration st.roundDuration st.courts)
        ∧ (∀ p ∈ parsePlayers st.playerInput,
            lookupKey (getPlayerWins (handleSubmit rng st).players
                (handleSubmit rng st).schedule (handleSubmit rng st).winners) p
              = some (some 0)))) ∧
    (st.courts * 4 ≤ st.players.length →
      ((handleRegenerate rng st).schedule
          = some (generateSchedule rng st.players st.courts
              (calculateRounds st.duration st.roundDuration st.courts))
        ∧ (handleRegenerate rng st).winners
          = List.replicate (calculateRounds st.duration st.roundDuration st.courts)
              (List.replicate st.courts CourtWinner.unset)
        ∧ (handleRegenerate rng st).numRounds
          = calculateRounds st.duration st.roundDuration st.courts
        ∧ (∀ row ∈ (handleRegenerate rng st).winners,
            row.length = st.courts ∧ ∀ x ∈ row, x = CourtWinner.unset)
        ∧ (handleRegenerate rng st).schedule.map (fun s => s.rounds.length)
          = some (calculateRounds st.duration st.roundDuration st.courts)
        ∧ (∀ p ∈ st.players,
            lookupKey (getPlayerWins (handleRegenerate rng st).players
                (handleRegenerate rng st).schedule
                (handleRegenerate rng st).winners) p
              = some (some 0)))) ∧
    (st.players.length < st.courts * 4 → handleRegenerate rng st = st) := by
  have hzero : ∀ (players : List String) (sch : Schedule) (R c : Nat),
      ∀ p ∈ players,
      lookupKey (getPlayerWins players (some sch)
          (List.replicate R (List.replicate c CourtWinner.unset))) p
        = some (some 0) := by
    intro players sch R c p hp
    rw [getPlayerWins_lookup players sch _ p
        (fun q hq => by
          rw [winsCredits_unset] at hq
          exact absurd hq (List.not_mem_nil q)) hp,
      winsCredits_unset]
    rfl
  refine ⟨?_, ?_, ?_, ?_⟩
  · intro e he
    unfold handleSubmit
    rw [he]
  · intro hv
    have hsub : handleSubmit rng st = { st with
        error := ""
        numRounds := calculateRounds st.duration st.roundDuration st.courts
        players := parsePlayers st.playerInput
        schedule := some (generateSchedule rng (parsePlayers st.playerInput)
          st.courts (calculateRounds st.duration st.roundDuration st.courts))
        winners := List.replicate
          (calculateRounds st.duration st.roundDuration st.courts)
          (List.replicate st.courts CourtWinner.unset) } := by
      unfold handleSubmit
      rw [hv]
    rw [hsub]
    refine ⟨rfl, rfl, rfl, List.length_replicate _ _, ?_, ?_, ?_⟩
    · intro row hrow
      rw [List.eq_of_mem_replicate hrow]
      exact ⟨List.length_replicate _ _,
        fun x hx => List.eq_of_mem_replicate hx⟩
    · exact congrArg some (genRounds_length rng (parsePlayers st.playerInput)
        st.courts (calculateRounds st.duration st.roundDuration st.courts) 0
        (fun _ => 0))
    · intro p hp
      exact hzero (parsePlayers st.playerInput) _ _ st.courts p hp
  · intro h
    have hreg : handleRegenerate rng st = { st with
        numRounds := calculateRounds st.duration st.roundDuration st.courts
        schedule := some (generateSchedule rng st.players st.courts
          (calculateRounds st.duration st.roundDuration st.courts))
        winners := List.replicate
          (calculateRounds st.duration st.roundDuration st.courts)
          (List.replicate st.courts CourtWinner.unset) } := by
      unfold handleRegenerate
      rw [if_pos h]
    rw [hreg]
    refine ⟨rfl, rfl, rfl, ?_, ?_, ?_⟩
    · intro row hrow
      rw [List.eq_of_mem_replicate hrow]
      exact ⟨List.length_replicate _ _,
        fun x hx => List.eq_of_mem_replicate hx⟩
    · exact congrArg some (genRounds_length rng st.players st.courts
        (calculateRounds st.duration st.roundDuration st.courts) 0
        (fun _ => 0))
    · intro p hp
      exact hzero st.players _ _ st.courts p hp
  · intro h
    unfold handleRegenerate
    rw [if_neg (by omega)]

theorem handlers_reset_ledger_witness :
    (handleRegenerate (fun _ _ => 0)
        ⟨["A", "B", "C", "D"], "", 1, 2, 15, none, "", [], 0⟩).winners
      = List.replicate (calculateRounds 2 15 1)
          (List.replicate 1 CourtWinner.unset) :=
  ((handlers_reset_ledger (fun _ _ => 0)
      ⟨["A", "B", "C", "D"], "", 1, 2, 15, none, "", [], 0⟩).2.2.1
    (by decide)).2.1
